import Mathlib

/-
  Verification development for `fix_framer_site.py`, a repair tool for a
  locally mirrored Framer site.  The script is embedded shallowly:

  * a file system is a list of (path, content) pairs plus a list of
    directories created by `mkdir`; paths are lists of components relative
    to the root, kept literally (no OS-level `..` resolution);
  * each regular expression of the script is translated to an explicit
    scanner with Python `re.findall` semantics: left-to-right scanning,
    non-overlapping matches, greedy character classes with backtracking,
    ordered alternation (`\s` is modelled by its ASCII members);
  * the network is an oracle `String → Option String` mapping a URL to the
    fetched body (`none` = the download raises and is caught and logged);
  * `download_file`'s `dest.parent.mkdir(...)` sits outside the
    `try`, so a parent path blocked by a regular file is modelled as a
    crash: the run functions return `Option FS`, `none` meaning an
    uncaught exception (process exit code 1).
-/

namespace FramerFix

/-! ### Character classes of the script's regular expressions -/

/-- `[A-Za-z0-9_-]`, the site-id class of `find_site_ids`. -/
def isIdChar (c : Char) : Bool :=
  c.isAlphanum || c = '_' || c = '-'

/-- `[A-Za-z0-9_\-\.]`, the asset-name class of `find_missing_assets`. -/
def isAssetChar (c : Char) : Bool :=
  c.isAlphanum || c = '_' || c = '-' || c = '.'

/-- `[^"'>]`, the class used for `searchIndex-...` references. -/
def isIdxChar (c : Char) : Bool :=
  !(c = '"' || c = '\'' || c = '>')

/-- `[^"']`, the class used for imported module paths. -/
def isNotQuote (c : Char) : Bool :=
  !(c = '"' || c = '\'')

/-- ASCII members of Python's `\s`. -/
def isSpaceCh (c : Char) : Bool :=
  c = ' ' || c = '\t' || c = '\n' || c = '\r' || c = '\x0b' || c = '\x0c'

/-- Quote characters accepted by the import patterns' `["\']`. -/
def quoteCh (c : Char) : Bool :=
  c = '"' || c = '\''

/-! ### List-of-characters utilities -/

/-- Boolean initial-segment test on character lists. -/
def lpre : List Char → List Char → Bool
  | [], _ => true
  | _ :: _, [] => false
  | a :: as, b :: bs => a == b && lpre as bs

/-- Match a literal: if `lit` is an initial segment of `l`, return the rest. -/
def strip : List Char → List Char → Option (List Char)
  | [], l => some l
  | _ :: _, [] => none
  | a :: as, b :: bs => if a = b then strip as bs else none

/-- Maximal run of characters satisfying `p` (a greedy `CLASS*`), with the rest. -/
def takeRun (p : Char → Bool) : List Char → List Char × List Char
  | [] => ([], [])
  | c :: cs =>
    if p c then
      let r := takeRun p cs
      (c :: r.1, r.2)
    else ([], c :: cs)

/-- Greedy backtracking for `CLASS+ TAIL`: `run` is the maximal class run and
`rest` the text after it; try the split point `k` (class part of length `k`)
from `k₀` down to `1` and return the first (largest) `k` at which the tail
matcher `tm` succeeds on the remaining text. -/
def greedySplitAux (tm : List Char → Option α) (run rest : List Char) :
    Nat → Option (Nat × α)
  | 0 => none
  | k + 1 =>
    match tm (run.drop (k + 1) ++ rest) with
    | some a => some (k + 1, a)
    | none => greedySplitAux tm run rest k

/-- `re.findall` driver: scan left to right; on a match emit its capture and
resume after the matched text, otherwise advance one character.  The fuel is
the text length; every matcher below consumes at least one character on
success, so the fuel never runs out. -/
def findallAux (tm : List Char → Option (String × List Char)) :
    Nat → List Char → List String
  | 0, _ => []
  | _ + 1, [] => []
  | n + 1, c :: cs =>
    match tm (c :: cs) with
    | some (s, rest) => s :: findallAux tm n rest
    | none => findallAux tm n cs

/-- All captures of matcher `tm` in `s`, with `re.findall` semantics. -/
def findall (tm : List Char → Option (String × List Char)) (s : String) :
    List String :=
  findallAux tm s.toList.length s.toList

/-! ### The six regular expressions of the script -/

/-- `framerusercontent\.com/sites/([A-Za-z0-9_-]+)` from `find_site_ids`. -/
def tryUrl (l : List Char) : Option (String × List Char) :=
  match strip "framerusercontent.com/sites/".toList l with
  | none => none
  | some r1 =>
    let p := takeRun isIdChar r1
    if p.1.isEmpty then none else some (String.mk p.1, p.2)

/-- `sites/([A-Za-z0-9_-]+)/searchIndex-[^"'>]+\.json` from `find_site_ids`. -/
def tryLocal (l : List Char) : Option (String × List Char) :=
  match strip "sites/".toList l with
  | none => none
  | some r1 =>
    let p := takeRun isIdChar r1
    if p.1.isEmpty then none else
    match strip "/searchIndex-".toList p.2 with
    | none => none
    | some r3 =>
      let q := takeRun isIdxChar r3
      match greedySplitAux (strip ".json".toList) q.1 q.2 q.1.length with
      | none => none
      | some (_, r5) => some (String.mk p.1, r5)

/-- Tail of the dynamic-import pattern after the captured class run:
`\.mjs["']\s*\)`. -/
def dynTail (l2 : List Char) : Option (List Char) :=
  match strip ".mjs".toList l2 with
  | none => none
  | some [] => none
  | some (q2 :: l4) =>
    if quoteCh q2 then
      match (takeRun isSpaceCh l4).2 with
      | ')' :: l6 => some l6
      | _ => none
    else none

/-- `import\(\s*["']\./([^"']+\.mjs)["']\s*\)` from `find_missing_mjs_for_site`. -/
def tryDyn (l : List Char) : Option (String × List Char) :=
  match strip "import(".toList l with
  | none => none
  | some r1 =>
    match (takeRun isSpaceCh r1).2 with
    | [] => none
    | q :: r3 =>
      if quoteCh q then
        match strip "./".toList r3 with
        | none => none
        | some r4 =>
          let p := takeRun isNotQuote r4
          match greedySplitAux dynTail p.1 p.2 p.1.length with
          | none => none
          | some (k, r6) => some (String.mk (p.1.take k) ++ ".mjs", r6)
      else none

/-- Tail of the static-import pattern after the captured class run:
`\.mjs["']`. -/
def staticTail (l2 : List Char) : Option (List Char) :=
  match strip ".mjs".toList l2 with
  | none => none
  | some [] => none
  | some (q2 :: l4) => if quoteCh q2 then some l4 else none

/-- `from\s+["']\./([^"']+\.mjs)["']` from `find_missing_mjs_for_site`. -/
def tryStatic (l : List Char) : Option (String × List Char) :=
  match strip "from".toList l with
  | none => none
  | some r1 =>
    let sp := takeRun isSpaceCh r1
    if sp.1.isEmpty then none else
    match sp.2 with
    | [] => none
    | q :: r3 =>
      if quoteCh q then
        match strip "./".toList r3 with
        | none => none
        | some r4 =>
          let p := takeRun isNotQuote r4
          match greedySplitAux staticTail p.1 p.2 p.1.length with
          | none => none
          | some (k, r6) => some (String.mk (p.1.take k) ++ ".mjs", r6)
      else none

/-- `https://framerusercontent\.com/sites/<id>/(searchIndex-[^"'>]+\.json)`
from `find_missing_search_indexes` (the site id is `re.escape`d, hence
matched literally). -/
def tryIdx (sid : String) (l : List Char) : Option (String × List Char) :=
  match strip ("https://framerusercontent.com/sites/" ++ sid ++ "/searchIndex-").toList l with
  | none => none
  | some r1 =>
    let q := takeRun isIdxChar r1
    match greedySplitAux (strip ".json".toList) q.1 q.2 q.1.length with
    | none => none
    | some (k, r3) => some ("searchIndex-" ++ String.mk (q.1.take k) ++ ".json", r3)

/-- The media/font extension alternation `(?:png|jpe?g|webp|gif|mp4|svg|woff2?)`
in Python's trial order. -/
def assetExtL : List (List Char) :=
  ["png", "jpeg", "jpg", "webp", "gif", "mp4", "svg", "woff2", "woff"].map String.toList

/-- Tail of the asset pattern after the captured class run: `\.` followed by
the extension alternation, returning the extension that matched. -/
def assetTail (l2 : List Char) : Option (List Char × List Char) :=
  match l2 with
  | [] => none
  | c :: l3 =>
    if c = '.' then
      assetExtL.findSome? (fun e =>
        match strip e l3 with
        | some l4 => some (e, l4)
        | none => none)
    else none

/-- `https://framerusercontent\.com/assets/([A-Za-z0-9_\-\.]+\.(?:png|jpe?g|webp|gif|mp4|svg|woff2?))`
from `find_missing_assets`. -/
def tryAsset (l : List Char) : Option (String × List Char) :=
  match strip "https://framerusercontent.com/assets/".toList l with
  | none => none
  | some r1 =>
    let p := takeRun isAssetChar r1
    match greedySplitAux assetTail p.1 p.2 p.1.length with
    | none => none
    | some (k, e, r3) => some (String.mk (p.1.take k ++ '.' :: e), r3)

/-! ### Paths, suffixes and the file-system model -/

/-- A path relative to the root, one component per element, kept literally. -/
abbrev FPath := List String

/-- Split a relative path fragment on `/`; like `pathlib`, empty and `.`
components are dropped while `..` is kept. -/
def splitSlash : List Char → List (List Char)
  | [] => [[]]
  | c :: rest =>
    if c = '/' then [] :: splitSlash rest
    else
      match splitSlash rest with
      | [] => [[c]]
      | h :: t => (c :: h) :: t

/-- Components of a relative fragment as joined by `pathlib`'s `/` operator. -/
def splitRel (s : String) : FPath :=
  ((splitSlash s.toList).map String.mk).filter (fun c => !(c = "" || c = "."))

/-- Python `Path.suffix` of a file name: the part from the last dot `i`,
provided `0 < i < len(name) - 1`; otherwise empty. -/
def pySuffix (nm : String) : String :=
  let l := nm.toList
  match ((List.range l.length).filter (fun i => l.getD i ' ' = '.')).getLast? with
  | none => ""
  | some i => if 0 < i && i + 1 < l.length then String.mk (l.drop i) else ""

/-- ASCII lower-casing, matching `str.lower` on the suffixes compared here. -/
def pyLower (s : String) : String :=
  String.mk (s.toList.map Char.toLower)

/-- Last component of a path (the file name). -/
def lastName (p : FPath) : String :=
  p.getLast?.getD ""

/-- `path.suffix.lower()` of the script. -/
def suffixLower (p : FPath) : String :=
  pyLower (pySuffix (lastName p))

/-- Extension filter of `find_site_ids` (markup, script and data files). -/
def ext5 (p : FPath) : Bool :=
  [".html", ".htm", ".js", ".mjs", ".json"].contains (suffixLower p)

/-- Extension filter of `find_missing_search_indexes` (no `.json`!). -/
def ext4 (p : FPath) : Bool :=
  [".html", ".htm", ".js", ".mjs"].contains (suffixLower p)

/-- Extension filter of `find_missing_assets`. -/
def extAsset (p : FPath) : Bool :=
  [".html", ".htm", ".js", ".mjs", ".css"].contains (suffixLower p)

/-- Boolean suffix test on strings (for `glob("*.mjs")`). -/
def endsWithStr (s suf : String) : Bool :=
  lpre suf.toList.reverse s.toList.reverse

/-- The root directory tree: regular files with contents, plus directories
(those created by `mkdir`; a directory also exists implicitly wherever a
file lives strictly below it). -/
structure FS where
  files : List (FPath × String)
  dirs : List FPath
deriving DecidableEq

/-- Boolean initial-segment test on paths. -/
def isUnder : FPath → FPath → Bool
  | [], _ => true
  | _ :: _, [] => false
  | a :: as, b :: bs => a == b && isUnder as bs

/-- A regular file exists at `p`. -/
def isFileB (fs : FS) (p : FPath) : Bool :=
  fs.files.any (fun e => e.1 == p)

/-- A directory exists at `p`: `p` lies on the way to a created directory or
strictly above some regular file. -/
def isDirB (fs : FS) (p : FPath) : Bool :=
  fs.dirs.any (fun d => isUnder p d) ||
    fs.files.any (fun e => isUnder p e.1 && !(e.1 == p))

/-- Python `Path.exists`: true for regular files and for directories. -/
def pexistsB (fs : FS) (p : FPath) : Bool :=
  isFileB fs p || isDirB fs p

/-- Write `body` at `dest` (as `urlretrieve` does), replacing any previous
regular file there. -/
def FS.setFile (fs : FS) (dest : FPath) (body : String) : FS :=
  ⟨(dest, body) :: fs.files.filter (fun e => !(e.1 == dest)), fs.dirs⟩

/-! ### The script's scanning functions -/

/-- Scan every file whose path passes `pred`, concatenating the captures of
`mf` on its content (read errors, which the script skips, are not modelled:
every file in `FS` is readable). -/
def collectL (pred : FPath → Bool) (mf : String → List String) :
    List (FPath × String) → List String
  | [] => []
  | e :: rest => (if pred e.1 then mf e.2 else []) ++ collectL pred mf rest

/-- `sorted(<set>)`: sorted, deduplicated view of a list of strings. -/
def sortDedup (l : List String) : List String :=
  l.dedup.insertionSort (· ≤ ·)

/-- `find_site_ids`: ids captured by the URL pattern and the local
`searchIndex` pattern in every text-like file under the root.  The script
returns a Python `set`; the list here is to be read up to order and
multiplicity, and `main` consumes it through `sorted(...)` = `sortDedup`. -/
def find_site_ids (fs : FS) : List String :=
  collectL ext5 (fun t => findall tryUrl t ++ findall tryLocal t) fs.files

/-- `glob("*.mjs")` membership for a direct child of `sites/<sid>/`. -/
def inSiteDirMjs (sid : String) (p : FPath) : Bool :=
  match p with
  | [a, b, nm] => a == "sites" && b == sid && endsWithStr nm ".mjs"
  | _ => false

/-- `find_missing_mjs_for_site`: warning lines produced, and the sorted
deduplicated list of imported `./*.mjs` paths that do not exist under
`sites/<sid>/`.  If that directory is missing a warning is logged and the
result is empty. -/
def find_missing_mjs_for_site (fs : FS) (sid : String) : List String × List String :=
  if isDirB fs ["sites", sid] then
    ([], sortDedup ((collectL (inSiteDirMjs sid)
        (fun t => findall tryDyn t ++ findall tryStatic t) fs.files).filter
      (fun rel => !pexistsB fs (["sites", sid] ++ splitRel rel))))
  else
    (["[WARN] sites/" ++ sid ++ " не найден локально"], [])

/-- `find_missing_search_indexes`: referenced `searchIndex-*.json` names for
`sid` found in `.html/.htm/.js/.mjs` files anywhere under the root, sorted
and deduplicated, keeping those absent from `sites/<sid>/`.  No directory
check, and no log output. -/
def find_missing_search_indexes (fs : FS) (sid : String) : List String :=
  (sortDedup (collectL ext4 (findall (tryIdx sid)) fs.files)).filter
    (fun nm => !pexistsB fs (["sites", sid] ++ splitRel nm))

/-- `find_missing_assets`: referenced asset file names, sorted and
deduplicated, keeping those present in neither `assets/` nor `images/`. -/
def find_missing_assets (fs : FS) : List String :=
  (sortDedup (collectL extAsset (findall tryAsset) fs.files)).filter
    (fun nm => !(pexistsB fs (["assets"] ++ splitRel nm) ||
                 pexistsB fs (["images"] ++ splitRel nm)))

/-! ### Remediation and `main` -/

/-- The network oracle: body fetched for a URL, `none` when the `GET` raises
(`HTTPError`, `URLError` or anything else — all caught by `download_file`). -/
abbrev Net := String → Option String

/-- Nonempty initial segments of a path, the directories `mkdir(parents=True)`
must create or find. -/
def ancestors (p : FPath) : List FPath :=
  (List.range p.length).map (fun i => p.take (i + 1))

/-- `download_file`: `dest.parent.mkdir(parents=True, exist_ok=True)` sits
outside the `try`, so if an ancestor of the parent exists as a regular file
the `FileExistsError`/`NotADirectoryError` escapes — modelled as `none`
(the process dies).  Otherwise the parent directory is created, and the
guarded `urlretrieve` either fails (logged, no write), hits a directory at
`dest` (`IsADirectoryError`, caught), or writes the body. -/
def download_file (net : Net) (fs : FS) (url : String) (dest : FPath) : Option FS :=
  if (ancestors dest.dropLast).any (fun q => isFileB fs q) then
    none
  else
    match net url with
    | none => some ⟨fs.files, dest.dropLast :: fs.dirs⟩
    | some body =>
      if isDirB ⟨fs.files, dest.dropLast :: fs.dirs⟩ dest then
        some ⟨fs.files, dest.dropLast :: fs.dirs⟩
      else some (FS.setFile ⟨fs.files, dest.dropLast :: fs.dirs⟩ dest body)

/-- Download a list of (url, destination) items in order. -/
def downloadAll (net : Net) (fs : FS) : List (String × FPath) → Option FS
  | [] => some fs
  | ud :: rest =>
    match download_file net fs ud.1 ud.2 with
    | none => none
    | some fs' => downloadAll net fs' rest

/-- One iteration of `main`'s per-site loop: detect missing modules and
search indexes, then (unless `--dry-run`) download each to
`sites/<sid>/<relative path>`. -/
def processSite (net : Net) (dry : Bool) (fs : FS) (sid : String) : Option FS :=
  let mjs := (find_missing_mjs_for_site fs sid).2
  let idx := find_missing_search_indexes fs sid
  if dry then some fs
  else
    match downloadAll net fs (mjs.map (fun f =>
        ("https://framerusercontent.com/sites/" ++ sid ++ "/" ++ f,
         ["sites", sid] ++ splitRel f))) with
    | none => none
    | some fs' =>
      downloadAll net fs' (idx.map (fun f =>
        ("https://framerusercontent.com/sites/" ++ sid ++ "/" ++ f,
         ["sites", sid] ++ splitRel f)))

/-- `main`'s loop over the sorted site ids. -/
def runSites (net : Net) (dry : Bool) : FS → List String → Option FS
  | fs, [] => some fs
  | fs, sid :: rest =>
    match processSite net dry fs sid with
    | none => none
    | some fs' => runSites net dry fs' rest

/-- The whole of `main` after the root check: analyse and remediate every
discovered site id, then the assets (downloaded into `assets/` only).
`none` = an uncaught exception from `download_file`'s `mkdir`. -/
def runMain (net : Net) (dry : Bool) (fs : FS) : Option FS :=
  match runSites net dry fs (sortDedup (find_site_ids fs)) with
  | none => none
  | some fs' =>
    if dry then some fs'
    else
      downloadAll net fs' ((find_missing_assets fs').map (fun nm =>
        ("https://framerusercontent.com/assets/" ++ nm, ["assets"] ++ splitRel nm)))

/-- Process exit code: `1` when `--root` is not an existing directory
(`sys.exit(1)`), `1` when an exception escapes `main` (CPython's exit code
for an uncaught exception), else `0`. -/
def mainExit (root : Option FS) (net : Net) (dry : Bool) : Nat :=
  match root with
  | none => 1
  | some fs =>
    match runMain net dry fs with
    | none => 1
    | some _ => 0

/-! ### Lemmas about the scanning primitives -/

theorem strip_append (a r : List Char) : strip a (a ++ r) = some r := by
  induction a with
  | nil => rfl
  | cons c cs ih => simp [strip, ih]

theorem strip_eq_some {a l r : List Char} (h : strip a l = some r) : l = a ++ r := by
  induction a generalizing l with
  | nil =>
    simp only [strip, Option.some.injEq] at h
    simp [h]
  | cons c cs ih =>
    cases l with
    | nil => simp [strip] at h
    | cons b bs =>
      simp only [strip] at h
      split at h
      · next heq => subst heq; simpa using ih h
      · exact absurd h (by simp)

theorem strip_none_of_lpre {a l : List Char} (h : lpre a l = false) : strip a l = none := by
  induction a generalizing l with
  | nil => simp [lpre] at h
  | cons c cs ih =>
    cases l with
    | nil => rfl
    | cons b bs =>
      simp only [lpre, Bool.and_eq_false_iff, beq_eq_false_iff_ne] at h
      simp only [strip]
      rcases h with h | h
      · exact if_neg h
      · by_cases hc : c = b
        · rw [if_pos hc, ih h]
        · exact if_neg hc

theorem lpre_of_strip_some {a l r : List Char} (h : strip a l = some r) : lpre a l = true := by
  induction a generalizing l with
  | nil => rfl
  | cons c cs ih =>
    cases l with
    | nil => simp [strip] at h
    | cons b bs =>
      simp only [strip] at h
      split at h
      · next heq => simp [lpre, heq, ih h]
      · exact absurd h (by simp)

theorem takeRun_append {p : Char → Bool} {a b : List Char}
    (ha : ∀ c ∈ a, p c = true) (hb : ∀ c, b.head? = some c → p c = false) :
    takeRun p (a ++ b) = (a, b) := by
  induction a with
  | nil =>
    cases b with
    | nil => rfl
    | cons c cs => simp [takeRun, hb c rfl]
  | cons c cs ih =>
    have hc : p c = true := ha c (by simp)
    have := ih (fun x hx => ha x (by simp [hx]))
    simp [takeRun, hc, this]

theorem findallAux_skip {tm : List Char → Option (String × List Char)}
    (pre text : List Char) :
    ∀ n, pre.length + text.length ≤ n →
    (∀ i, i < pre.length → tm ((pre ++ text).drop i) = none) →
    findallAux tm n (pre ++ text) = findallAux tm (n - pre.length) text := by
  induction pre with
  | nil => intro n _ _; simp
  | cons c cs ih =>
    intro n hn h
    cases n with
    | zero =>
      simp only [List.length_cons] at hn
      omega
    | succ n =>
      have h0 : tm (c :: (cs ++ text)) = none := by simpa using h 0 (by simp)
      have hrest : ∀ i, i < cs.length → tm ((cs ++ text).drop i) = none := by
        intro i hi
        simpa using h (i + 1) (by simpa using hi)
      have hlen : cs.length + text.length ≤ n := by
        simp only [List.length_cons] at hn
        omega
      have step : findallAux tm (n + 1) (c :: cs ++ text) = findallAux tm n (cs ++ text) := by
        simp only [List.cons_append, findallAux, List.append_eq, h0]
      rw [step, ih n hlen hrest, List.length_cons, Nat.succ_sub_succ]

theorem findallAux_prop {tm : List Char → Option (String × List Char)} {P : String → Prop}
    (H : ∀ l s r, tm l = some (s, r) → P s) :
    ∀ n l s, s ∈ findallAux tm n l → P s := by
  intro n
  induction n with
  | zero => intro l s h; simp [findallAux] at h
  | succ n ih =>
    intro l s h
    match l with
    | [] => simp [findallAux] at h
    | c :: cs =>
      simp only [findallAux] at h
      cases htm : tm (c :: cs) with
      | none => rw [htm] at h; exact ih _ _ h
      | some pr =>
        rw [htm] at h
        rcases List.mem_cons.mp h with h | h
        · exact h ▸ H _ _ _ htm
        · exact ih _ _ h

theorem findall_prop {tm : List Char → Option (String × List Char)} {P : String → Prop}
    (H : ∀ l s r, tm l = some (s, r) → P s) {t : String} {s : String}
    (h : s ∈ findall tm t) : P s :=
  findallAux_prop H _ _ _ h

/-! ### Lemmas about paths, collection and sorting -/

theorem isUnder_iff {p q : FPath} : isUnder p q = true ↔ p <+: q := by
  induction p generalizing q with
  | nil => simp [isUnder]
  | cons a as ih =>
    cases q with
    | nil => simp [isUnder]
    | cons b bs => simp [isUnder, ih, List.cons_prefix_cons]

theorem mem_collectL {pred : FPath → Bool} {mf : String → List String}
    {L : List (FPath × String)} {r : String} :
    r ∈ collectL pred mf L ↔ ∃ e, e ∈ L ∧ pred e.1 = true ∧ r ∈ mf e.2 := by
  induction L with
  | nil => simp [collectL]
  | cons e rest ih =>
    by_cases hp : pred e.1 = true
    · simp only [collectL, if_pos hp, List.mem_append, ih, List.mem_cons]
      constructor
      · rintro (h | ⟨e', he', hp', hr⟩)
        · exact ⟨e, Or.inl rfl, hp, h⟩
        · exact ⟨e', Or.inr he', hp', hr⟩
      · rintro ⟨e', (rfl | he'), hp', hr⟩
        · exact Or.inl hr
        · exact Or.inr ⟨e', he', hp', hr⟩
    · simp only [collectL, if_neg hp, List.nil_append, ih, List.mem_cons]
      constructor
      · rintro ⟨e', he', hp', hr⟩
        exact ⟨e', Or.inr he', hp', hr⟩
      · rintro ⟨e', (rfl | he'), hp', hr⟩
        · exact absurd hp' hp
        · exact ⟨e', he', hp', hr⟩

theorem isFileB_iff {fs : FS} {p : FPath} :
    isFileB fs p = true ↔ ∃ e ∈ fs.files, e.1 = p := by
  simp [isFileB, List.any_eq_true]

theorem isDirB_iff {fs : FS} {p : FPath} :
    isDirB fs p = true ↔
      (∃ d ∈ fs.dirs, p <+: d) ∨ ∃ e ∈ fs.files, p <+: e.1 ∧ e.1 ≠ p := by
  simp [isDirB, List.any_eq_true, isUnder_iff, Bool.and_eq_true, Bool.not_eq_true',
    beq_eq_false_iff_ne]

theorem isDirB_of_file_mem {fs : FS} {e : FPath × String} (he : e ∈ fs.files)
    {q : FPath} (hu : q <+: e.1) (hne : e.1 ≠ q) : isDirB fs q = true :=
  isDirB_iff.mpr (Or.inr ⟨e, he, hu, hne⟩)

theorem prefix_antisymm {l₁ l₂ : FPath} (h₁ : l₁ <+: l₂) (h₂ : l₂ <+: l₁) : l₁ = l₂ :=
  h₁.eq_of_length (Nat.le_antisymm h₁.length_le h₂.length_le)

theorem pexistsB_not_under {fs : FS} {q p : FPath} (hdir : isDirB fs q = false)
    (hu : q <+: p) (hne : q ≠ p) : pexistsB fs p = false := by
  rw [pexistsB, Bool.or_eq_false_iff]
  constructor
  · by_contra hf
    rw [Bool.not_eq_false] at hf
    obtain ⟨e, he, hq⟩ := isFileB_iff.mp hf
    have h1 : q <+: e.1 := hq.symm ▸ hu
    have h2 : e.1 ≠ q := fun h => hne (h.symm.trans hq)
    exact absurd (isDirB_of_file_mem he h1 h2) (by simp [hdir])
  · by_contra hd
    rw [Bool.not_eq_false] at hd
    rcases isDirB_iff.mp hd with ⟨d, hdm, hp⟩ | ⟨e, he, hp, hpe⟩
    · exact absurd (isDirB_iff.mpr (Or.inl ⟨d, hdm, hu.trans hp⟩)) (by simp [hdir])
    · refine absurd (isDirB_iff.mpr (Or.inr ⟨e, he, hu.trans hp, ?_⟩)) (by simp [hdir])
      intro h
      exact hne (prefix_antisymm hu (h ▸ hp))

theorem mem_sortDedup {a : String} {l : List String} : a ∈ sortDedup l ↔ a ∈ l := by
  unfold sortDedup
  rw [(List.perm_insertionSort _ _).mem_iff, List.mem_dedup]

theorem sortDedup_sorted (l : List String) : (sortDedup l).Sorted (· ≤ ·) :=
  List.sorted_insertionSort _ _

theorem sortDedup_nodup (l : List String) : (sortDedup l).Nodup :=
  (List.perm_insertionSort _ _).nodup_iff.mpr (List.nodup_dedup l)

/-! ### Lemmas about remediation steps -/

/-- A string that some URL fetches to (the only file contents a run can
create besides those already present). -/
def IsBody (net : Net) (c : String) : Prop :=
  ∃ u, net u = some c

theorem pexistsB_eq_or {fs : FS} {p : FPath} :
    pexistsB fs p = true ↔ isFileB fs p = true ∨ isDirB fs p = true := by
  simp [pexistsB]

theorem download_shape {net : Net} {fs : FS} {url : String} {dest : FPath} {fs' : FS}
    (h : download_file net fs url dest = some fs') :
    fs'.dirs = dest.dropLast :: fs.dirs ∧
      (fs'.files = fs.files ∨
        ∃ body, net url = some body ∧
          fs'.files = (dest, body) :: fs.files.filter (fun e => !(e.1 == dest))) := by
  unfold download_file at h
  split at h
  · exact absurd h (by simp)
  · cases hnet : net url with
    | none => rw [hnet] at h; cases h; exact ⟨rfl, Or.inl rfl⟩
    | some body =>
      rw [hnet] at h
      dsimp only at h
      by_cases hdir : isDirB ⟨fs.files, dest.dropLast :: fs.dirs⟩ dest = true
      · rw [if_pos hdir] at h
        obtain rfl := Option.some.inj h
        exact ⟨rfl, Or.inl rfl⟩
      · rw [if_neg hdir] at h
        obtain rfl := Option.some.inj h
        exact ⟨rfl, Or.inr ⟨body, rfl, rfl⟩⟩

theorem download_mem {net : Net} {fs : FS} {url : String} {dest : FPath} {fs' : FS}
    (h : download_file net fs url dest = some fs') :
    ∀ e ∈ fs'.files, e ∈ fs.files ∨ (e.1 = dest ∧ net url = some e.2) := by
  obtain ⟨-, hf | ⟨body, hnet, hf⟩⟩ := download_shape h
  · intro e he; exact Or.inl (hf ▸ he)
  · intro e he
    rw [hf] at he
    rcases List.mem_cons.mp he with rfl | he
    · exact Or.inr ⟨rfl, hnet⟩
    · exact Or.inl (List.mem_filter.mp he).1

theorem download_pexists_mono {net : Net} {fs : FS} {url : String} {dest : FPath} {fs' : FS}
    {p : FPath} (h : download_file net fs url dest = some fs')
    (hp : pexistsB fs p = true) : pexistsB fs' p = true := by
  obtain ⟨hd, hf⟩ := download_shape h
  rcases pexistsB_eq_or.mp hp with hfile | hdir
  · -- a regular file at `p` survives (possibly overwritten at the same path)
    obtain ⟨e, he, hq⟩ := isFileB_iff.mp hfile
    rcases hf with hf | ⟨body, hnet, hf⟩
    · exact pexistsB_eq_or.mpr (Or.inl (isFileB_iff.mpr ⟨e, hf ▸ he, hq⟩))
    · by_cases hdst : e.1 = dest
      · refine pexistsB_eq_or.mpr (Or.inl (isFileB_iff.mpr ⟨(dest, body), ?_, hdst ▸ hq⟩))
        rw [hf]; exact List.mem_cons_self _ _
      · refine pexistsB_eq_or.mpr (Or.inl (isFileB_iff.mpr ⟨e, ?_, hq⟩))
        rw [hf]
        exact List.mem_cons_of_mem _ (List.mem_filter.mpr ⟨he, by simp [hdst]⟩)
  · rcases isDirB_iff.mp hdir with ⟨d, hdm, hpd⟩ | ⟨e, he, hpe, hne⟩
    · refine pexistsB_eq_or.mpr (Or.inr (isDirB_iff.mpr (Or.inl ⟨d, ?_, hpd⟩)))
      rw [hd]; exact List.mem_cons_of_mem _ hdm
    · rcases hf with hf | ⟨body, hnet, hf⟩
      · exact pexistsB_eq_or.mpr (Or.inr (isDirB_iff.mpr (Or.inr ⟨e, hf ▸ he, hpe, hne⟩)))
      · by_cases hdst : e.1 = dest
        · refine pexistsB_eq_or.mpr (Or.inr (isDirB_iff.mpr (Or.inr
            ⟨(dest, body), ?_, hdst ▸ hpe, hdst ▸ hne⟩)))
          rw [hf]; exact List.mem_cons_self _ _
        · refine pexistsB_eq_or.mpr (Or.inr (isDirB_iff.mpr (Or.inr ⟨e, ?_, hpe, hne⟩)))
          rw [hf]
          exact List.mem_cons_of_mem _ (List.mem_filter.mpr ⟨he, by simp [hdst]⟩)

theorem download_dest {net : Net} {fs : FS} {url : String} {dest : FPath} {fs' : FS}
    (h : download_file net fs url dest = some fs') (hok : (net url).isSome = true) :
    pexistsB fs' dest = true := by
  unfold download_file at h
  split at h
  · exact absurd h (by simp)
  · cases hnet : net url with
    | none => rw [hnet] at hok; simp at hok
    | some body =>
      rw [hnet] at h
      dsimp only at h
      by_cases hdir : isDirB ⟨fs.files, dest.dropLast :: fs.dirs⟩ dest = true
      · rw [if_pos hdir] at h
        obtain rfl := Option.some.inj h
        exact pexistsB_eq_or.mpr (Or.inr hdir)
      · rw [if_neg hdir] at h
        obtain rfl := Option.some.inj h
        refine pexistsB_eq_or.mpr (Or.inl ?_)
        exact isFileB_iff.mpr ⟨(dest, body), List.mem_cons_self _ _, rfl⟩

theorem downloadAll_mem {net : Net} :
    ∀ {L : List (String × FPath)} {fs fs' : FS}, downloadAll net fs L = some fs' →
      ∀ e ∈ fs'.files, e ∈ fs.files ∨ ∃ ud ∈ L, e.1 = ud.2 ∧ net ud.1 = some e.2 := by
  intro L
  induction L with
  | nil =>
    intro fs fs' h e he
    cases h
    exact Or.inl he
  | cons ud rest ih =>
    intro fs fs' h e he
    rw [downloadAll] at h
    cases hstep : download_file net fs ud.1 ud.2 with
    | none => rw [hstep] at h; exact absurd h (by simp)
    | some fsm =>
      rw [hstep] at h
      rcases ih h e he with hm | ⟨ud', hud', hd', hnet'⟩
      · rcases download_mem hstep e hm with hm' | ⟨hd, hnet⟩
        · exact Or.inl hm'
        · exact Or.inr ⟨ud, List.mem_cons_self _ _, hd, hnet⟩
      · exact Or.inr ⟨ud', List.mem_cons_of_mem _ hud', hd', hnet'⟩

theorem downloadAll_mem_body {net : Net} {L : List (String × FPath)} {fs fs' : FS}
    (h : downloadAll net fs L = some fs') :
    ∀ e ∈ fs'.files, e ∈ fs.files ∨ IsBody net e.2 := by
  intro e he
  rcases downloadAll_mem h e he with hm | ⟨ud, -, -, hnet⟩
  · exact Or.inl hm
  · exact Or.inr ⟨ud.1, hnet⟩

theorem downloadAll_pexists_mono {net : Net} :
    ∀ {L : List (String × FPath)} {fs fs' : FS}, downloadAll net fs L = some fs' →
      ∀ {p : FPath}, pexistsB fs p = true → pexistsB fs' p = true := by
  intro L
  induction L with
  | nil => intro fs fs' h p hp; cases h; exact hp
  | cons ud rest ih =>
    intro fs fs' h p hp
    rw [downloadAll] at h
    cases hstep : download_file net fs ud.1 ud.2 with
    | none => rw [hstep] at h; exact absurd h (by simp)
    | some fsm =>
      rw [hstep] at h
      exact ih h (download_pexists_mono hstep hp)

theorem downloadAll_dest {net : Net} (hok : ∀ u, (net u).isSome = true) :
    ∀ {L : List (String × FPath)} {fs fs' : FS}, downloadAll net fs L = some fs' →
      ∀ ud ∈ L, pexistsB fs' ud.2 = true := by
  intro L
  induction L with
  | nil => intro fs fs' _ ud h; simp at h
  | cons ud0 rest ih =>
    intro fs fs' h ud hud
    rw [downloadAll] at h
    cases hstep : download_file net fs ud0.1 ud0.2 with
    | none => rw [hstep] at h; exact absurd h (by simp)
    | some fsm =>
      rw [hstep] at h
      rcases List.mem_cons.mp hud with rfl | hud
      · exact downloadAll_pexists_mono h (download_dest hstep (hok ud.1))
      · exact ih h ud hud

theorem processSite_chain {net : Net} {fs : FS} {sid : String} {fs' : FS}
    (h : processSite net false fs sid = some fs') :
    ∃ fsm,
      downloadAll net fs ((find_missing_mjs_for_site fs sid).2.map (fun f =>
        ("https://framerusercontent.com/sites/" ++ sid ++ "/" ++ f,
         ["sites", sid] ++ splitRel f))) = some fsm ∧
      downloadAll net fsm ((find_missing_search_indexes fs sid).map (fun f =>
        ("https://framerusercontent.com/sites/" ++ sid ++ "/" ++ f,
         ["sites", sid] ++ splitRel f))) = some fs' := by
  unfold processSite at h
  simp only [Bool.false_eq_true, if_false] at h
  cases hm : downloadAll net fs ((find_missing_mjs_for_site fs sid).2.map (fun f =>
      ("https://framerusercontent.com/sites/" ++ sid ++ "/" ++ f,
       ["sites", sid] ++ splitRel f))) with
  | none => rw [hm] at h; exact absurd h (by simp)
  | some fsm => rw [hm] at h; exact ⟨fsm, rfl, h⟩

theorem processSite_mem {net : Net} {fs : FS} {sid : String} {fs' : FS}
    (h : processSite net false fs sid = some fs') :
    ∀ e ∈ fs'.files, e ∈ fs.files ∨ IsBody net e.2 := by
  obtain ⟨fsm, h1, h2⟩ := processSite_chain h
  intro e he
  rcases downloadAll_mem_body h2 e he with hm | hb
  · exact downloadAll_mem_body h1 e hm
  · exact Or.inr hb

theorem processSite_pexists_mono {net : Net} {fs : FS} {sid : String} {fs' : FS}
    (h : processSite net false fs sid = some fs') {p : FPath}
    (hp : pexistsB fs p = true) : pexistsB fs' p = true := by
  obtain ⟨fsm, h1, h2⟩ := processSite_chain h
  exact downloadAll_pexists_mono h2 (downloadAll_pexists_mono h1 hp)

theorem processSite_handles {net : Net} (hok : ∀ u, (net u).isSome = true)
    {fs : FS} {sid : String} {fs' : FS} (h : processSite net false fs sid = some fs') :
    (∀ rel ∈ (find_missing_mjs_for_site fs sid).2,
        pexistsB fs' (["sites", sid] ++ splitRel rel) = true) ∧
    (∀ nm ∈ find_missing_search_indexes fs sid,
        pexistsB fs' (["sites", sid] ++ splitRel nm) = true) := by
  obtain ⟨fsm, h1, h2⟩ := processSite_chain h
  constructor
  · intro rel hrel
    have := downloadAll_dest hok h1 _ (List.mem_map_of_mem _ hrel)
    exact downloadAll_pexists_mono h2 this
  · intro nm hnm
    exact downloadAll_dest hok h2 _ (List.mem_map_of_mem _ hnm)

/-- Everything the second run needs to know about the state `fsk` at which a
site id was analysed during the first run, relative to the final state. -/
def Covers (net : Net) (fsk fs1 : FS) (sid : String) : Prop :=
  (∀ e ∈ fs1.files, e ∈ fsk.files ∨ IsBody net e.2) ∧
  (∀ p : FPath, pexistsB fsk p = true → pexistsB fs1 p = true) ∧
  (∀ rel ∈ (find_missing_mjs_for_site fsk sid).2,
      pexistsB fs1 (["sites", sid] ++ splitRel rel) = true) ∧
  (∀ nm ∈ find_missing_search_indexes fsk sid,
      pexistsB fs1 (["sites", sid] ++ splitRel nm) = true)

theorem Covers.lift {net : Net} {fsk fsA fsB : FS} {sid : String}
    (hc : Covers net fsk fsA sid)
    (hmem : ∀ e ∈ fsB.files, e ∈ fsA.files ∨ IsBody net e.2)
    (hmono : ∀ p : FPath, pexistsB fsA p = true → pexistsB fsB p = true) :
    Covers net fsk fsB sid := by
  obtain ⟨h1, h2, h3, h4⟩ := hc
  refine ⟨?_, fun p hp => hmono p (h2 p hp), fun rel hrel => hmono _ (h3 rel hrel),
    fun nm hnm => hmono _ (h4 nm hnm)⟩
  intro e he
  rcases hmem e he with he' | hb
  · exact h1 e he'
  · exact Or.inr hb

theorem runSites_mem {net : Net} :
    ∀ {l : List String} {fs fs' : FS}, runSites net false fs l = some fs' →
      ∀ e ∈ fs'.files, e ∈ fs.files ∨ IsBody net e.2 := by
  intro l
  induction l with
  | nil => intro fs fs' h e he; cases h; exact Or.inl he
  | cons sid rest ih =>
    intro fs fs' h e he
    rw [runSites] at h
    cases hstep : processSite net false fs sid with
    | none => rw [hstep] at h; exact absurd h (by simp)
    | some fsm =>
      rw [hstep] at h
      rcases ih h e he with hm | hb
      · exact processSite_mem hstep e hm
      · exact Or.inr hb

theorem runSites_pexists_mono {net : Net} :
    ∀ {l : List String} {fs fs' : FS}, runSites net false fs l = some fs' →
      ∀ {p : FPath}, pexistsB fs p = true → pexistsB fs' p = true := by
  intro l
  induction l with
  | nil => intro fs fs' h p hp; cases h; exact hp
  | cons sid rest ih =>
    intro fs fs' h p hp
    rw [runSites] at h
    cases hstep : processSite net false fs sid with
    | none => rw [hstep] at h; exact absurd h (by simp)
    | some fsm =>
      rw [hstep] at h
      exact ih h (processSite_pexists_mono hstep hp)

theorem runSites_covers {net : Net} (hok : ∀ u, (net u).isSome = true) :
    ∀ {l : List String} {fs fs' : FS}, runSites net false fs l = some fs' →
      ∀ sid ∈ l, ∃ fsk, Covers net fsk fs' sid := by
  intro l
  induction l with
  | nil => intro fs fs' _ sid h; simp at h
  | cons sid0 rest ih =>
    intro fs fs' h sid hsid
    rw [runSites] at h
    cases hstep : processSite net false fs sid0 with
    | none => rw [hstep] at h; exact absurd h (by simp)
    | some fsm =>
      rw [hstep] at h
      rcases List.mem_cons.mp hsid with rfl | hsid
      · refine ⟨fs, ?_, ?_, ?_, ?_⟩
        · intro e he
          rcases runSites_mem h e he with hm | hb
          · exact processSite_mem hstep e hm
          · exact Or.inr hb
        · intro p hp
          exact runSites_pexists_mono h (processSite_pexists_mono hstep hp)
        · intro rel hrel
          exact runSites_pexists_mono h ((processSite_handles hok hstep).1 rel hrel)
        · intro nm hnm
          exact runSites_pexists_mono h ((processSite_handles hok hstep).2 nm hnm)
      · exact ih h sid hsid

theorem runMain_decompose {net : Net} {fs fs1 : FS}
    (h : runMain net false fs = some fs1) :
    ∃ fsS, runSites net false fs (sortDedup (find_site_ids fs)) = some fsS ∧
      downloadAll net fsS ((find_missing_assets fsS).map (fun nm =>
        ("https://framerusercontent.com/assets/" ++ nm,
         ["assets"] ++ splitRel nm))) = some fs1 := by
  unfold runMain at h
  cases hs : runSites net false fs (sortDedup (find_site_ids fs)) with
  | none => rw [hs] at h; exact absurd h (by simp)
  | some fsS =>
    rw [hs] at h
    simp only [Bool.false_eq_true, if_false] at h
    exact ⟨fsS, rfl, h⟩

theorem runMain_mem {net : Net} {fs fs1 : FS} (h : runMain net false fs = some fs1) :
    ∀ e ∈ fs1.files, e ∈ fs.files ∨ IsBody net e.2 := by
  obtain ⟨fsS, hS, hA⟩ := runMain_decompose h
  intro e he
  rcases downloadAll_mem_body hA e he with hm | hb
  · exact runSites_mem hS e hm
  · exact Or.inr hb

/-- A fetched body that introduces no new references: none of the six
patterns matches anywhere in it. -/
def RefFree (b : String) : Prop :=
  findall tryDyn b = [] ∧ findall tryStatic b = [] ∧ findall tryUrl b = [] ∧
  findall tryLocal b = [] ∧ findall tryAsset b = [] ∧
  ∀ sid, findall (tryIdx sid) b = []

/-! ### Shape of the captured strings -/

theorem greedySplitAux_sound {α} {tm : List Char → Option α} {run rest : List Char} :
    ∀ {k0 k : Nat} {a : α}, greedySplitAux tm run rest k0 = some (k, a) →
      1 ≤ k ∧ k ≤ k0 ∧ tm (run.drop k ++ rest) = some a := by
  intro k0
  induction k0 with
  | zero => intro k a h; simp [greedySplitAux] at h
  | succ k0 ih =>
    intro k a h
    rw [greedySplitAux] at h
    cases htm : tm (run.drop (k0 + 1) ++ rest) with
    | some b =>
      rw [htm] at h
      obtain ⟨hk, ha⟩ := Prod.mk.inj (Option.some.inj h)
      subst hk
      subst ha
      exact ⟨Nat.succ_le_succ (Nat.zero_le _), Nat.le_refl _, htm⟩
    | none =>
      rw [htm] at h
      obtain ⟨h1, h2, h3⟩ := ih h
      exact ⟨h1, Nat.le_succ_of_le h2, h3⟩

theorem takeRun_all {p : Char → Bool} : ∀ {l : List Char}, ∀ c ∈ (takeRun p l).1, p c = true := by
  intro l
  induction l with
  | nil => intro c hc; simp [takeRun] at hc
  | cons c0 cs ih =>
    intro c hc
    by_cases h0 : p c0 = true
    · simp only [takeRun, if_pos h0] at hc
      rcases List.mem_cons.mp hc with rfl | hc
      · exact h0
      · exact ih c hc
    · simp only [takeRun, if_neg h0] at hc
      simp at hc

theorem tryIdx_capture {sid : String} {l : List Char} {s : String} {r : List Char}
    (h : tryIdx sid l = some (s, r)) :
    ∃ mid : String, s = "searchIndex-" ++ mid ++ ".json" := by
  unfold tryIdx at h
  cases h1 : strip ("https://framerusercontent.com/sites/" ++ sid ++ "/searchIndex-").toList l with
  | none => rw [h1] at h; exact absurd h (by simp)
  | some r1 =>
    rw [h1] at h
    dsimp only at h
    cases h2 : greedySplitAux (strip ".json".toList) (takeRun isIdxChar r1).1
        (takeRun isIdxChar r1).2 (takeRun isIdxChar r1).1.length with
    | none => rw [h2] at h; exact absurd h (by simp)
    | some ka =>
      rw [h2] at h
      obtain ⟨k, a⟩ := ka
      dsimp only at h
      obtain ⟨hs, -⟩ := Prod.mk.inj (Option.some.inj h)
      exact ⟨String.mk ((takeRun isIdxChar r1).1.take k), hs.symm⟩

theorem findSome?_mem {α β} {f : α → Option β} :
    ∀ {L : List α} {b : β}, L.findSome? f = some b → ∃ a ∈ L, f a = some b := by
  intro L
  induction L with
  | nil => intro b h; simp [List.findSome?] at h
  | cons a as ih =>
    intro b h
    rw [List.findSome?] at h
    cases hfa : f a with
    | some b' =>
      rw [hfa] at h
      exact ⟨a, List.mem_cons_self _ _, by rw [hfa, Option.some.inj h]⟩
    | none =>
      rw [hfa] at h
      obtain ⟨a', ha', hfa'⟩ := ih h
      exact ⟨a', List.mem_cons_of_mem _ ha', hfa'⟩

theorem assetTail_ext {l2 : List Char} {e0 r3 : List Char}
    (h : assetTail l2 = some (e0, r3)) : e0 ∈ assetExtL := by
  unfold assetTail at h
  cases l2 with
  | nil => exact absurd h (by simp)
  | cons c l3 =>
    dsimp only at h
    by_cases hc : c = '.'
    · rw [if_pos hc] at h
      obtain ⟨e', he', hfe⟩ := findSome?_mem h
      cases hstrip : strip e' l3 with
      | none => rw [hstrip] at hfe; exact absurd hfe (by simp)
      | some l4 =>
        rw [hstrip] at hfe
        obtain ⟨he0, -⟩ := Prod.mk.inj (Option.some.inj hfe)
        exact he0 ▸ he'
    · rw [if_neg hc] at h
      exact absurd h (by simp)

theorem tryAsset_capture {l : List Char} {s : String} {r : List Char}
    (h : tryAsset l = some (s, r)) :
    (∀ c ∈ s.toList, isAssetChar c = true) ∧ ∃ e ∈ assetExtL, ('.' :: e) <:+ s.toList := by
  unfold tryAsset at h
  cases h1 : strip "https://framerusercontent.com/assets/".toList l with
  | none => rw [h1] at h; exact absurd h (by simp)
  | some r1 =>
    rw [h1] at h
    dsimp only at h
    cases h2 : greedySplitAux assetTail (takeRun isAssetChar r1).1
        (takeRun isAssetChar r1).2 (takeRun isAssetChar r1).1.length with
    | none => rw [h2] at h; exact absurd h (by simp)
    | some ka =>
      rw [h2] at h
      obtain ⟨k, e0, r3⟩ := ka
      dsimp only at h
      obtain ⟨hs, -⟩ := Prod.mk.inj (Option.some.inj h)
      obtain ⟨-, -, htm⟩ := greedySplitAux_sound h2
      have hext : e0 ∈ assetExtL := assetTail_ext htm
      have hall : ∀ e ∈ assetExtL, ∀ c ∈ e, isAssetChar c = true := by decide
      have hchars : ∀ c ∈ e0, isAssetChar c = true := hall e0 hext
      subst hs
      constructor
      · intro c hc
        have hc' : c ∈ (takeRun isAssetChar r1).1.take k ++ '.' :: e0 := hc
        rcases List.mem_append.mp hc' with hc2 | hc2
        · exact takeRun_all c (List.take_subset _ _ hc2)
        · rcases List.mem_cons.mp hc2 with rfl | hc2
          · decide
          · exact hchars c hc2
      · refine ⟨e0, hext, ?_⟩
        exact (List.suffix_append _ _ :
          ('.' :: e0) <:+ (takeRun isAssetChar r1).1.take k ++ '.' :: e0)

theorem splitSlash_no_slash : ∀ {l : List Char}, (∀ c ∈ l, c ≠ '/') → splitSlash l = [l] := by
  intro l
  induction l with
  | nil => intro _; rfl
  | cons c cs ih =>
    intro h
    rw [splitSlash, if_neg (h c (by simp)), ih (fun x hx => h x (by simp [hx]))]

theorem splitRel_single {s : String} (hs : ∀ c ∈ s.toList, c ≠ '/')
    (hne : s.toList ≠ []) (hdot : s.toList ≠ ['.']) : splitRel s = [s] := by
  unfold splitRel
  rw [splitSlash_no_slash hs]
  have h1 : ¬(String.mk s.toList = "") := fun he => hne (by simpa using congrArg String.data he)
  have h2 : ¬(String.mk s.toList = ".") := fun he => hdot (by simpa using congrArg String.data he)
  simp only [List.map_cons, List.map_nil, List.filter, decide_eq_false h1, decide_eq_false h2,
    Bool.or_self, Bool.not_false]
  rfl

theorem splitRel_head_ne_nil {s : String} {c : Char} {cs : List Char}
    (hs : s.toList = c :: cs) (hslash : c ≠ '/') (hdot : c ≠ '.') : splitRel s ≠ [] := by
  unfold splitRel
  rw [hs, splitSlash, if_neg hslash]
  have hkeep : ∀ t : List Char, ¬(String.mk (c :: t) = "" ∨ String.mk (c :: t) = ".") := by
    rintro t (he | he)
    · have hd : c :: t = [] := congrArg String.data he
      simp at hd
    · have hd : c :: t = ['.'] := congrArg String.data he
      exact hdot (List.cons.inj hd).1
  cases hsp : splitSlash cs with
  | nil =>
    dsimp only [List.map]
    rw [List.filter_cons_of_pos (by simpa using hkeep [])]
    simp
  | cons h0 t0 =>
    dsimp only [List.map]
    rw [List.filter_cons_of_pos (by simpa using hkeep h0)]
    simp

/-! ### C5: dry-run makes no change to the tree -/

theorem runSites_dry (net : Net) : ∀ (l : List String) (fs : FS),
    runSites net true fs l = some fs := by
  intro l
  induction l with
  | nil => intro fs; rfl
  | cons sid rest ih =>
    intro fs
    rw [runSites]
    have hp : processSite net true fs sid = some fs := rfl
    rw [hp]
    exact ih fs

/-- C5: with `--dry-run` the run changes nothing at all: the resulting tree
is exactly the input tree (so no file under `sites/`, `assets/` or `images/`
is created or modified, however many items the detections report), and the
run never crashes. -/
theorem dry_run_no_writes (net : Net) (fs : FS) : runMain net true fs = some fs := by
  unfold runMain
  rw [runSites_dry net _ fs]
  rfl

/-! ### C6: missing `sites/<id>` directory -/

/-- C6: when `sites/<id>` is not a directory, missing-module detection
emits exactly the warning line and returns the empty list (it is a total
function: no exception, the run continues). -/
theorem missing_site_dir_warns (fs : FS) (sid : String)
    (h : isDirB fs ["sites", sid] = false) :
    find_missing_mjs_for_site fs sid =
      (["[WARN] sites/" ++ sid ++ " не найден локально"], []) := by
  unfold find_missing_mjs_for_site
  rw [if_neg (by simp [h])]

/-- Witness for C6 at a concrete tree without `sites/abc`. -/
theorem missing_site_dir_warns_witness :
    isDirB ⟨[(["index.html"], "x")], []⟩ ["sites", "abc"] = false ∧
      find_missing_mjs_for_site ⟨[(["index.html"], "x")], []⟩ "abc" =
        (["[WARN] sites/abc не найден локально"], []) :=
  ⟨rfl, missing_site_dir_warns _ "abc" rfl⟩

/-! ### C7: exit codes -/

/-- C7 (amended): the process exits 1 exactly when the root is not an
existing directory or the run dies in `download_file`'s unguarded `mkdir`
(a destination's parent path blocked by a regular file); every other run —
including runs whose downloads all fail — exits 0. -/
theorem exit_code_one_iff (root : Option FS) (net : Net) (dry : Bool) :
    mainExit root net dry = 1 ↔
      root = none ∨ ∃ fs, root = some fs ∧ runMain net dry fs = none := by
  cases root with
  | none => simp [mainExit]
  | some fs =>
    cases h : runMain net dry fs with
    | none => simp [mainExit, h]
    | some fs' => simp [mainExit, h]

/-- C7 counterexample: a perfectly valid root that contains a regular file
named `assets` and a stylesheet referencing a missing asset makes the run
crash in `mkdir` and exit 1 — refuting "exit code 1 only for the missing
root precondition", even though every download would have succeeded. -/
theorem exit_code_counterexample :
    mainExit (some ⟨[(["style.css"], "url(https://framerusercontent.com/assets/logo123.png)"),
        (["assets"], "")], []⟩) (fun _ => some "IMG") false = 1 ∧
    (some (⟨[(["style.css"], "url(https://framerusercontent.com/assets/logo123.png)"),
        (["assets"], "")], []⟩ : FS)) ≠ none :=
  ⟨rfl, by simp⟩

/-! ### C2: the module-import scenario -/

/-- C2 counterexample: with the static import of `./util.mjs` sitting in
`sites/abc123/page.html`, the scenario's premises hold (the import is
there, `sites/abc123/util.mjs` does not exist) yet module detection scans
only `*.mjs` files and returns `[]`, not `["util.mjs"]`. -/
theorem mjs_scenario_counterexample :
    "util.mjs" ∈ findall tryStatic "import x from \"./util.mjs\";" ∧
    pexistsB ⟨[(["index.html"], "https://framerusercontent.com/sites/abc123/page.html"),
        (["sites", "abc123", "page.html"], "import x from \"./util.mjs\";")], []⟩
      ["sites", "abc123", "util.mjs"] = false ∧
    (find_missing_mjs_for_site ⟨[(["index.html"],
        "https://framerusercontent.com/sites/abc123/page.html"),
        (["sites", "abc123", "page.html"], "import x from \"./util.mjs\";")], []⟩
      "abc123").2 = [] ∧
    ([] : List String) ≠ ["util.mjs"] :=
  ⟨by decide, rfl, rfl, by simp⟩

/-- C2 (amended): the same scenario with the import in a module file
`page.mjs` does yield `["util.mjs"]`. -/
theorem mjs_scenario_amended :
    (find_missing_mjs_for_site ⟨[(["index.html"],
        "https://framerusercontent.com/sites/abc123/page.html"),
        (["sites", "abc123", "page.mjs"], "import x from \"./util.mjs\";")], []⟩
      "abc123").2 = ["util.mjs"] := rfl

/-! ### C9: search-index detection without the site directory -/

/-- C9: search-index detection has no directory precondition: when
`sites/<id>` does not exist it reports every referenced index name for that
id as missing (the function, like the source, produces no log output),
whereas missing-module detection in the same situation warns and returns
the empty list. -/
theorem idx_detection_without_dir (fs : FS) (sid : String)
    (h : isDirB fs ["sites", sid] = false) :
    find_missing_search_indexes fs sid =
        sortDedup (collectL ext4 (findall (tryIdx sid)) fs.files) ∧
      find_missing_mjs_for_site fs sid =
        (["[WARN] sites/" ++ sid ++ " не найден локально"], []) := by
  constructor
  · unfold find_missing_search_indexes
    apply List.filter_eq_self.mpr
    intro nm hnm
    obtain ⟨e, he, hext, hm⟩ := mem_collectL.mp (mem_sortDedup.mp hnm)
    have hcap : ∃ mid : String, nm = "searchIndex-" ++ mid ++ ".json" :=
      findall_prop (fun l s r hh => tryIdx_capture hh) hm
    obtain ⟨mid, rfl⟩ := hcap
    have hhead : ("searchIndex-" ++ mid ++ ".json").toList =
        's' :: ("earchIndex-" ++ mid ++ ".json").toList := rfl
    have hnn : splitRel ("searchIndex-" ++ mid ++ ".json") ≠ [] :=
      splitRel_head_ne_nil hhead (by decide) (by decide)
    have hne : (["sites", sid] : FPath) ≠
        ["sites", sid] ++ splitRel ("searchIndex-" ++ mid ++ ".json") := by
      intro heq
      exact hnn (by simpa using heq.symm)
    have hfls := pexistsB_not_under h (List.prefix_append _ _) hne
    have hfix : pexistsB fs
        ("sites" :: sid :: splitRel ("searchIndex-" ++ mid ++ ".json")) = false := hfls
    simp [hfix]
  · unfold find_missing_mjs_for_site
    rw [if_neg (by simp [h])]

/-- Witness for C9: a tree referencing `searchIndex-1.json` for `abc` with
no `sites/abc` directory. -/
theorem idx_detection_without_dir_witness :
    isDirB ⟨[(["index.html"],
        "https://framerusercontent.com/sites/abc/searchIndex-1.json")], []⟩
      ["sites", "abc"] = false ∧
    (find_missing_search_indexes ⟨[(["index.html"],
        "https://framerusercontent.com/sites/abc/searchIndex-1.json")], []⟩ "abc" =
        ["searchIndex-1.json"] ∧
      find_missing_mjs_for_site ⟨[(["index.html"],
        "https://framerusercontent.com/sites/abc/searchIndex-1.json")], []⟩ "abc" =
        (["[WARN] sites/abc не найден локально"], [])) :=
  ⟨rfl, idx_detection_without_dir _ "abc" rfl⟩

/-! ### C4: what search-index detection scans -/

/-- C4 (amended): for a given identifier, search-index detection scans every
file under the whole root whose extension lies in `{.html, .htm, .js, .mjs}`
(markup and script files only — unlike identifier discovery it does not scan
`.json` files) for `searchIndex-*.json` references scoped by that
identifier, and returns the sorted, deduplicated list of referenced names
absent from `sites/<identifier>/`. -/
theorem search_index_detection_characterization (fs : FS) (sid : String) :
    (find_missing_search_indexes fs sid).Sorted (· ≤ ·) ∧
    (find_missing_search_indexes fs sid).Nodup ∧
    ∀ nm : String, nm ∈ find_missing_search_indexes fs sid ↔
      ((∃ e ∈ fs.files, ext4 e.1 = true ∧ nm ∈ findall (tryIdx sid) e.2) ∧
        pexistsB fs (["sites", sid] ++ splitRel nm) = false) := by
  refine ⟨(sortDedup_sorted _).sublist (List.filter_sublist _),
    (sortDedup_nodup _).sublist (List.filter_sublist _), ?_⟩
  intro nm
  unfold find_missing_search_indexes
  rw [List.mem_filter, mem_sortDedup]
  rw [mem_collectL]
  simp [Bool.not_eq_true']

/-- C4 counterexample: the only reference to the (absent) index file
`searchIndex-1.json` sits in a `.json` file; identifier discovery scans
that file and finds the id `abc`, but index detection skips `.json` files
and reports nothing missing. -/
theorem search_index_json_counterexample :
    ext5 ["data.json"] = true ∧
    "abc" ∈ find_site_ids ⟨[(["data.json"],
        "https://framerusercontent.com/sites/abc/searchIndex-1.json")], []⟩ ∧
    "searchIndex-1.json" ∈ findall (tryIdx "abc")
        "https://framerusercontent.com/sites/abc/searchIndex-1.json" ∧
    pexistsB ⟨[(["data.json"],
        "https://framerusercontent.com/sites/abc/searchIndex-1.json")], []⟩
      ["sites", "abc", "searchIndex-1.json"] = false ∧
    find_missing_search_indexes ⟨[(["data.json"],
        "https://framerusercontent.com/sites/abc/searchIndex-1.json")], []⟩ "abc" = [] :=
  ⟨rfl, by decide, by decide, rfl, rfl⟩

/-! ### C10: asset names are safe path components -/

theorem assetName_shape {fs : FS} {nm : String}
    (h : nm ∈ sortDedup (collectL extAsset (findall tryAsset) fs.files)) :
    (∀ c ∈ nm.toList, isAssetChar c = true) ∧
      (∃ e ∈ assetExtL, ('.' :: e) <:+ nm.toList) ∧ splitRel nm = [nm] := by
  obtain ⟨e, he, hext, hm⟩ := mem_collectL.mp (mem_sortDedup.mp h)
  obtain ⟨hchars, e0, he0, hsuf⟩ :=
    findall_prop (fun l s r hh => tryAsset_capture hh) hm
  refine ⟨hchars, ⟨e0, he0, hsuf⟩, ?_⟩
  have hslash : ∀ c ∈ nm.toList, c ≠ '/' := by
    intro c hc heq
    have hcc := hchars c hc
    rw [heq] at hcc
    exact absurd hcc (by decide)
  have hne : nm.toList ≠ [] := by
    intro hl
    rcases hsuf with ⟨t, ht⟩
    rw [hl] at ht
    exact absurd ht (by simp)
  have hdot : nm.toList ≠ ['.'] := by
    intro hl
    rcases hsuf with ⟨t, ht⟩
    rw [hl] at ht
    have hlen := congrArg List.length ht
    simp [List.length_append] at hlen
    have hall : ∀ x ∈ assetExtL, x ≠ [] := by decide
    have : e0.length ≠ 0 := fun h0 => hall e0 he0 (List.length_eq_zero.mp h0)
    omega
  exact splitRel_single hslash hne hdot

/-- C10: every asset name collected by asset detection is built from the
asset character class (which contains no path separator) and ends in one
of the fixed media/font extensions; consequently the remediation
destination `assets/<name>` is one component directly inside `assets/`. -/
theorem asset_names_safe (fs : FS) (nm : String)
    (h : nm ∈ sortDedup (collectL extAsset (findall tryAsset) fs.files)) :
    (∀ c ∈ nm.toList, isAssetChar c = true) ∧
      (∃ e ∈ assetExtL, ('.' :: e) <:+ nm.toList) ∧
      ["assets"] ++ splitRel nm = ["assets", nm] := by
  obtain ⟨h1, h2, h3⟩ := assetName_shape h
  exact ⟨h1, h2, by rw [h3]; rfl⟩

/-- Witness for C10 at a stylesheet referencing one asset. -/
theorem asset_names_safe_witness :
    "logo123.png" ∈ sortDedup (collectL extAsset (findall tryAsset)
        (FS.files ⟨[(["style.css"],
          "https://framerusercontent.com/assets/logo123.png")], []⟩)) ∧
      ((∀ c ∈ "logo123.png".toList, isAssetChar c = true) ∧
        (∃ e ∈ assetExtL, ('.' :: e) <:+ "logo123.png".toList) ∧
        ["assets"] ++ splitRel "logo123.png" = ["assets", "logo123.png"]) :=
  ⟨by decide, asset_names_safe ⟨[(["style.css"],
      "https://framerusercontent.com/assets/logo123.png")], []⟩ "logo123.png" (by decide)⟩

/-! ### C8: asset detection and remediation destinations -/

/-- C8: asset detection returns the sorted list of referenced content-origin
asset names that exist in neither `assets/` nor `images/` (presence in
either satisfies the reference), and a remediation pass over that list can
only create files at `assets/<name>`, for names from that list. -/
theorem assets_detection_and_remediation (fs fs1 : FS) (net : Net)
    (hrun : downloadAll net fs ((find_missing_assets fs).map (fun nm =>
        ("https://framerusercontent.com/assets/" ++ nm,
         ["assets"] ++ splitRel nm))) = some fs1) :
    (find_missing_assets fs).Sorted (· ≤ ·) ∧
    (∀ nm : String, nm ∈ find_missing_assets fs ↔
      ((∃ e ∈ fs.files, extAsset e.1 = true ∧ nm ∈ findall tryAsset e.2) ∧
        pexistsB fs (["assets"] ++ splitRel nm) = false ∧
        pexistsB fs (["images"] ++ splitRel nm) = false)) ∧
    (∀ e ∈ fs1.files, e ∈ fs.files ∨
      ∃ nm ∈ find_missing_assets fs, e.1 = ["assets", nm]) := by
  refine ⟨(sortDedup_sorted _).sublist (List.filter_sublist _), ?_, ?_⟩
  · intro nm
    unfold find_missing_assets
    rw [List.mem_filter, mem_sortDedup]
    rw [mem_collectL]
    constructor
    · rintro ⟨h1, h2⟩
      simp only [Bool.not_eq_true', Bool.or_eq_false_iff] at h2
      exact ⟨h1, h2.1, h2.2⟩
    · rintro ⟨h1, h2, h3⟩
      refine ⟨h1, ?_⟩
      have h2' : pexistsB fs ("assets" :: splitRel nm) = false := h2
      have h3' : pexistsB fs ("images" :: splitRel nm) = false := h3
      simp [h2', h3']
  · intro e he
    rcases downloadAll_mem hrun e he with hm | ⟨ud, hud, hd, -⟩
    · exact Or.inl hm
    · obtain ⟨nm, hnm, rfl⟩ := List.mem_map.mp hud
      refine Or.inr ⟨nm, hnm, ?_⟩
      have hmem : nm ∈ sortDedup (collectL extAsset (findall tryAsset) fs.files) := by
        unfold find_missing_assets at hnm
        exact (List.mem_filter.mp hnm).1
      rw [hd, (assetName_shape hmem).2.2]
      rfl

/-- Witness for C8: one referenced asset, downloaded into `assets/`. -/
theorem assets_detection_and_remediation_witness :
    downloadAll (fun _ => some "IMG")
        ⟨[(["style.css"], "https://framerusercontent.com/assets/logo123.png")], []⟩
        ((find_missing_assets ⟨[(["style.css"],
            "https://framerusercontent.com/assets/logo123.png")], []⟩).map (fun nm =>
          ("https://framerusercontent.com/assets/" ++ nm,
           ["assets"] ++ splitRel nm))) =
      some ⟨[(["assets", "logo123.png"], "IMG"),
        (["style.css"], "https://framerusercontent.com/assets/logo123.png")], [["assets"]]⟩ ∧
    (∀ e ∈ (FS.files ⟨[(["assets", "logo123.png"], "IMG"),
        (["style.css"], "https://framerusercontent.com/assets/logo123.png")], [["assets"]]⟩),
      e ∈ (FS.files ⟨[(["style.css"],
          "https://framerusercontent.com/assets/logo123.png")], []⟩) ∨
        ∃ nm ∈ find_missing_assets ⟨[(["style.css"],
            "https://framerusercontent.com/assets/logo123.png")], []⟩,
          e.1 = ["assets", nm]) :=
  ⟨rfl, (assets_detection_and_remediation
    ⟨[(["style.css"], "https://framerusercontent.com/assets/logo123.png")], []⟩
    ⟨[(["assets", "logo123.png"], "IMG"),
      (["style.css"], "https://framerusercontent.com/assets/logo123.png")], [["assets"]]⟩
    (fun _ => some "IMG") rfl).2.2⟩

/-! ### C3: identifier discovery -/

theorem tryUrl_none {l : List Char}
    (h : lpre "framerusercontent.com/sites/".toList l = false) : tryUrl l = none := by
  unfold tryUrl
  rw [strip_none_of_lpre h]

theorem tryLocal_none {l : List Char}
    (h : lpre "sites/".toList l = false) : tryLocal l = none := by
  unfold tryLocal
  rw [strip_none_of_lpre h]

theorem mem_findallAux_head {tm : List Char → Option (String × List Char)}
    {c : Char} {cs : List Char} {s : String} {r : List Char}
    (htm : tm (c :: cs) = some (s, r)) (n : Nat) :
    s ∈ findallAux tm (n + 1) (c :: cs) := by
  simp only [findallAux, htm]
  exact List.mem_cons_self _ _

/-- A class run prefixed by characters that all belong to the class. -/
theorem takeRun_append_all {p : Char → Bool} {a : List Char}
    (ha : ∀ c ∈ a, p c = true) (b : List Char) :
    takeRun p (a ++ b) = (a ++ (takeRun p b).1, (takeRun p b).2) := by
  induction a with
  | nil => simp
  | cons c cs ih =>
    have hc : p c = true := ha c (by simp)
    have := ih (fun x hx => ha x (by simp [hx]))
    simp [takeRun, hc, this]

/-- Completeness of the greedy splitter: if some admissible split point
makes the tail match, the search succeeds. -/
theorem greedySplitAux_isSome {α} {tm : List Char → Option α} {run rest : List Char}
    {k : Nat} {a : α} (hk1 : 1 ≤ k) (htm : tm (run.drop k ++ rest) = some a) :
    ∀ {k0 : Nat}, k ≤ k0 → (greedySplitAux tm run rest k0).isSome = true := by
  intro k0
  induction k0 with
  | zero => intro hk; omega
  | succ k0 ih =>
    intro hk
    rw [greedySplitAux]
    cases htop : tm (run.drop (k0 + 1) ++ rest) with
    | some b => simp
    | none =>
      rcases Nat.lt_or_ge k (k0 + 1) with hlt | hge
      · exact ih (Nat.lt_succ_iff.mp hlt)
      · have : k = k0 + 1 := Nat.le_antisymm hk hge
        rw [this] at htm
        rw [htm] at htop
        exact absurd htop (by simp)

/-- C3 (amended): identifier discovery includes `<id>` whenever a scanned
file's text contains a content-origin URL
`framerusercontent.com/sites/<id>/...` with no occurrence of the literal
`framerusercontent.com/sites/` starting earlier in the text, or a local
reference `sites/<id>/searchIndex-<suffix>.json` with no occurrence of the
literal `sites/` starting earlier in the text.  The per-pattern guard is
what `re.findall`'s non-overlapping left-to-right scan forces: an earlier
match of the same pattern may consume the occurrence. -/
theorem discovery_includes_id (fs : FS) (path : FPath) (id : String)
    (hid1 : id.toList ≠ []) (hid2 : ∀ c ∈ id.toList, isIdChar c = true)
    (hcase :
      (∃ pre suf : String,
        (path, pre ++ "framerusercontent.com/sites/" ++ id ++ "/" ++ suf) ∈ fs.files ∧
        ext5 path = true ∧
        ∀ i, i < pre.toList.length →
          lpre "framerusercontent.com/sites/".toList
            ((pre ++ "framerusercontent.com/sites/" ++ id ++ "/" ++ suf).toList.drop i) =
            false) ∨
      (∃ pre mid suf : String,
        (path, pre ++ "sites/" ++ id ++ "/searchIndex-" ++ mid ++ ".json" ++ suf) ∈
          fs.files ∧
        ext5 path = true ∧
        mid.toList ≠ [] ∧ (∀ c ∈ mid.toList, isIdxChar c = true) ∧
        ∀ i, i < pre.toList.length →
          lpre "sites/".toList
            ((pre ++ "sites/" ++ id ++ "/searchIndex-" ++ mid ++ ".json" ++
              suf).toList.drop i) = false)) :
    id ∈ find_site_ids fs := by
  rcases hcase with ⟨pre, suf, hfile, hext, hpre⟩ |
    ⟨pre, mid, suf, hfile, hext, hmid1, hmid2, hpre⟩
  · -- the content-origin URL pattern
    apply mem_collectL.mpr
    refine ⟨_, hfile, hext, ?_⟩
    apply List.mem_append.mpr
    left
    have htext : (pre ++ "framerusercontent.com/sites/" ++ id ++ "/" ++ suf).toList =
        pre.toList ++ ("framerusercontent.com/sites/".toList ++
          (id.toList ++ '/' :: suf.toList)) := by
      have h0 : (pre ++ "framerusercontent.com/sites/" ++ id ++ "/" ++ suf).toList =
          ((pre.toList ++ "framerusercontent.com/sites/".toList) ++ id.toList ++ ['/']) ++
            suf.toList := rfl
      rw [h0]
      simp [List.append_assoc]
    have hmatch : tryUrl ("framerusercontent.com/sites/".toList ++
        (id.toList ++ '/' :: suf.toList)) = some (String.mk id.toList, '/' :: suf.toList) := by
      unfold tryUrl
      rw [strip_append]
      dsimp only
      have hrun : takeRun isIdChar (id.toList ++ '/' :: suf.toList) =
          (id.toList, '/' :: suf.toList) :=
        takeRun_append hid2 (by rintro c ⟨rfl⟩; decide)
      rw [hrun]
      dsimp only
      rw [if_neg (by simpa [List.isEmpty_iff] using hid1)]
    unfold findall
    rw [htext]
    rw [findallAux_skip pre.toList
      ("framerusercontent.com/sites/".toList ++ (id.toList ++ '/' :: suf.toList)) _
      (le_of_eq (List.length_append _ _).symm)
      (fun i hi => tryUrl_none (htext ▸ hpre i hi))]
    have hlen : (pre.toList ++ ("framerusercontent.com/sites/".toList ++
        (id.toList ++ '/' :: suf.toList))).length - pre.toList.length =
        ("ramerusercontent.com/sites/".toList ++
          (id.toList ++ '/' :: suf.toList)).length + 1 := by
      rw [List.length_append]
      simp [Nat.add_sub_cancel_left]
    rw [hlen]
    have hpay : "framerusercontent.com/sites/".toList ++ (id.toList ++ '/' :: suf.toList) =
        'f' :: ("ramerusercontent.com/sites/".toList ++ (id.toList ++ '/' :: suf.toList)) := rfl
    rw [hpay] at hmatch ⊢
    exact mem_findallAux_head hmatch _
  · -- the local searchIndex pattern
    apply mem_collectL.mpr
    refine ⟨_, hfile, hext, ?_⟩
    apply List.mem_append.mpr
    right
    have htext : (pre ++ "sites/" ++ id ++ "/searchIndex-" ++ mid ++ ".json" ++
        suf).toList =
        pre.toList ++ ("sites/".toList ++ (id.toList ++ ("/searchIndex-".toList ++
          (mid.toList ++ (".json".toList ++ suf.toList))))) := by
      have h0 : (pre ++ "sites/" ++ id ++ "/searchIndex-" ++ mid ++ ".json" ++
          suf).toList =
          (((((pre.toList ++ "sites/".toList) ++ id.toList) ++ "/searchIndex-".toList) ++
            mid.toList) ++ ".json".toList) ++ suf.toList := rfl
      rw [h0]
      simp [List.append_assoc]
    have hmatch : ∃ r : List Char,
        tryLocal ("sites/".toList ++ (id.toList ++ ("/searchIndex-".toList ++
          (mid.toList ++ (".json".toList ++ suf.toList))))) =
          some (String.mk id.toList, r) := by
      unfold tryLocal
      rw [strip_append]
      dsimp only
      have hrun : takeRun isIdChar (id.toList ++ ("/searchIndex-".toList ++
          (mid.toList ++ (".json".toList ++ suf.toList)))) =
          (id.toList, "/searchIndex-".toList ++
            (mid.toList ++ (".json".toList ++ suf.toList))) :=
        takeRun_append hid2 (by rintro c ⟨rfl⟩; decide)
      rw [hrun]
      dsimp only
      rw [if_neg (by simpa [List.isEmpty_iff] using hid1)]
      rw [strip_append]
      dsimp only
      have hjson : ∀ c ∈ ".json".toList, isIdxChar c = true := by decide
      rw [takeRun_append_all hmid2, takeRun_append_all hjson]
      dsimp only
      have hdrop : (mid.toList ++ (".json".toList ++
            (takeRun isIdxChar suf.toList).1)).drop mid.toList.length ++
          (takeRun isIdxChar suf.toList).2 =
          ".json".toList ++ ((takeRun isIdxChar suf.toList).1 ++
            (takeRun isIdxChar suf.toList).2) := by
        rw [List.drop_left, List.append_assoc]
      have htm : strip ".json".toList
          ((mid.toList ++ (".json".toList ++
            (takeRun isIdxChar suf.toList).1)).drop mid.toList.length ++
            (takeRun isIdxChar suf.toList).2) =
          some ((takeRun isIdxChar suf.toList).1 ++ (takeRun isIdxChar suf.toList).2) := by
        rw [hdrop, strip_append]
      have hk0 : mid.toList.length ≤ (mid.toList ++ (".json".toList ++
          (takeRun isIdxChar suf.toList).1)).length := by
        rw [List.length_append]
        exact Nat.le_add_right _ _
      have hsome := greedySplitAux_isSome (List.length_pos.mpr hmid1) htm hk0
      cases hgs : greedySplitAux (strip ".json".toList)
          (mid.toList ++ (".json".toList ++ (takeRun isIdxChar suf.toList).1))
          (takeRun isIdxChar suf.toList).2
          (mid.toList ++ (".json".toList ++ (takeRun isIdxChar suf.toList).1)).length with
      | none => rw [hgs] at hsome; simp at hsome
      | some kr =>
        obtain ⟨k', r5⟩ := kr
        exact ⟨r5, rfl⟩
    obtain ⟨r5, hmatch⟩ := hmatch
    unfold findall
    rw [htext]
    rw [findallAux_skip pre.toList
      ("sites/".toList ++ (id.toList ++ ("/searchIndex-".toList ++
        (mid.toList ++ (".json".toList ++ suf.toList))))) _
      (le_of_eq (List.length_append _ _).symm)
      (fun i hi => tryLocal_none (htext ▸ hpre i hi))]
    have hlen : (pre.toList ++ ("sites/".toList ++ (id.toList ++
        ("/searchIndex-".toList ++ (mid.toList ++
          (".json".toList ++ suf.toList)))))).length - pre.toList.length =
        ("ites/".toList ++ (id.toList ++ ("/searchIndex-".toList ++
          (mid.toList ++ (".json".toList ++ suf.toList))))).length + 1 := by
      rw [List.length_append]
      simp [Nat.add_sub_cancel_left]
    rw [hlen]
    have hpay : "sites/".toList ++ (id.toList ++ ("/searchIndex-".toList ++
        (mid.toList ++ (".json".toList ++ suf.toList)))) =
        's' :: ("ites/".toList ++ (id.toList ++ ("/searchIndex-".toList ++
          (mid.toList ++ (".json".toList ++ suf.toList))))) := rfl
    rw [hpay] at hmatch ⊢
    exact mem_findallAux_head hmatch _

/-- Witness for C3 (amended): one tree exercising the URL disjunct and one
exercising the local searchIndex disjunct, both with an empty prefix. -/
theorem discovery_includes_id_witness :
    ("abc".toList ≠ [] ∧ ∀ c ∈ "abc".toList, isIdChar c = true) ∧
    "abc" ∈ find_site_ids ⟨[(["index.html"],
      "" ++ "framerusercontent.com/sites/" ++ "abc" ++ "/" ++ "x")], []⟩ ∧
    "b" ∈ find_site_ids ⟨[(["page.js"],
      "" ++ "sites/" ++ "b" ++ "/searchIndex-" ++ "1" ++ ".json" ++ "")], []⟩ :=
  ⟨⟨by decide, by decide⟩,
    discovery_includes_id ⟨[(["index.html"],
        "" ++ "framerusercontent.com/sites/" ++ "abc" ++ "/" ++ "x")], []⟩
      ["index.html"] "abc" (by decide) (by decide)
      (Or.inl ⟨"", "x", List.mem_cons_self _ _, rfl,
        fun i hi => absurd hi (Nat.not_lt_zero i)⟩),
    discovery_includes_id ⟨[(["page.js"],
        "" ++ "sites/" ++ "b" ++ "/searchIndex-" ++ "1" ++ ".json" ++ "")], []⟩
      ["page.js"] "b" (by decide) (by decide)
      (Or.inr ⟨"", "1", "", List.mem_cons_self _ _, rfl, by decide, by decide,
        fun i hi => absurd hi (Nat.not_lt_zero i)⟩)⟩

/-- C3 counterexample, one instance per pattern.  URL pattern: the text
contains `framerusercontent.com/sites/abc/` from offset 28, but the
earlier overlapping match captures `framerusercontent` and consumes it, so
`abc` is missed.  Local pattern: the text contains
`sites/b/searchIndex-1.json` from offset 20 (and no content-origin prefix
anywhere), but the match starting at offset 0 captures `a` and greedily
consumes the rest, so `b` is missed. -/
theorem discovery_counterexample :
    ("framerusercontent.com/sites/framerusercontent.com/sites/abc/" : String) =
      "framerusercontent.com/sites/" ++ "framerusercontent.com/sites/" ++ "abc" ++ "/" ++ "" ∧
    (∀ c ∈ "abc".toList, isIdChar c = true) ∧
    "abc" ∉ find_site_ids ⟨[(["index.html"],
      "framerusercontent.com/sites/framerusercontent.com/sites/abc/")], []⟩ ∧
    find_site_ids ⟨[(["index.html"],
      "framerusercontent.com/sites/framerusercontent.com/sites/abc/")], []⟩ =
      ["framerusercontent"] ∧
    ("sites/a/searchIndex-sites/b/searchIndex-1.json" : String) =
      "sites/a/searchIndex-" ++ "sites/" ++ "b" ++ "/searchIndex-" ++ "1" ++ ".json" ++ "" ∧
    (∀ c ∈ "b".toList, isIdChar c = true) ∧
    "b" ∉ find_site_ids ⟨[(["index.html"],
      "sites/a/searchIndex-sites/b/searchIndex-1.json")], []⟩ ∧
    find_site_ids ⟨[(["index.html"],
      "sites/a/searchIndex-sites/b/searchIndex-1.json")], []⟩ = ["a"] :=
  ⟨rfl, by decide, by decide, rfl, rfl, by decide, by decide, rfl⟩

/-! ### C1: the completion property -/

theorem inSiteDirMjs_eq {sid : String} {p : FPath} (h : inSiteDirMjs sid p = true) :
    ∃ nm, p = ["sites", sid, nm] := by
  match p with
  | [] => simp [inSiteDirMjs] at h
  | [_] => simp [inSiteDirMjs] at h
  | [_, _] => simp [inSiteDirMjs] at h
  | a :: b :: c :: d :: t => simp [inSiteDirMjs] at h
  | [a, b, nm] =>
    simp only [inSiteDirMjs, Bool.and_eq_true, beq_iff_eq] at h
    exact ⟨nm, by rw [h.1.1, h.1.2]⟩

/-- C1 (amended): after a completed non-dry run in which every download
succeeds and every fetched body is reference-free, a second run over the
resulting tree reports no missing module, no missing search index and no
missing asset, for every discovered site id. -/
theorem completion_after_remediation (fs0 fs1 : FS) (net : Net)
    (hok : ∀ u, (net u).isSome = true)
    (hclean : ∀ u b, net u = some b → RefFree b)
    (hrun : runMain net false fs0 = some fs1) :
    (∀ sid ∈ sortDedup (find_site_ids fs1),
        (find_missing_mjs_for_site fs1 sid).2 = [] ∧
          find_missing_search_indexes fs1 sid = []) ∧
      find_missing_assets fs1 = [] := by
  obtain ⟨fsS, hS, hA⟩ := runMain_decompose hrun
  have hbody : ∀ c : String, IsBody net c → RefFree c := by
    rintro c ⟨u, hu⟩
    exact hclean u c hu
  constructor
  · intro sid hsid
    have hsid0 : sid ∈ sortDedup (find_site_ids fs0) := by
      rw [mem_sortDedup] at hsid ⊢
      obtain ⟨e, he, hext, hm⟩ := mem_collectL.mp hsid
      rcases runMain_mem hrun e he with he0 | hb
      · exact mem_collectL.mpr ⟨e, he0, hext, hm⟩
      · obtain ⟨-, -, hu, hl, -, -⟩ := hbody e.2 hb
        rw [hu, hl] at hm
        simp at hm
    obtain ⟨fsk, hcovS⟩ := runSites_covers hok hS sid hsid0
    obtain ⟨hmem, hmono, hmjs, hidx⟩ :=
      hcovS.lift (downloadAll_mem_body hA) (fun p hp => downloadAll_pexists_mono hA hp)
    constructor
    · -- no missing module
      have hall : ∀ rel ∈ collectL (inSiteDirMjs sid)
          (fun t => findall tryDyn t ++ findall tryStatic t) fs1.files,
          pexistsB fs1 (["sites", sid] ++ splitRel rel) = true := by
        intro rel hrel
        obtain ⟨e, he, hpred, hm⟩ := mem_collectL.mp hrel
        rcases hmem e he with hek | hb
        · obtain ⟨nm, hpe⟩ := inSiteDirMjs_eq hpred
          have hdirk : isDirB fsk ["sites", sid] = true :=
            isDirB_of_file_mem hek (by rw [hpe]; exact ⟨[nm], rfl⟩) (by rw [hpe]; simp)
          by_cases hex : pexistsB fsk (["sites", sid] ++ splitRel rel) = true
          · exact hmono _ hex
          · apply hmjs rel
            unfold find_missing_mjs_for_site
            rw [if_pos hdirk]
            dsimp only
            rw [mem_sortDedup]
            refine List.mem_filter.mpr ⟨mem_collectL.mpr ⟨e, hek, hpred, hm⟩, ?_⟩
            have hfix : pexistsB fsk ("sites" :: sid :: splitRel rel) = false :=
              Bool.eq_false_iff.mpr hex
            simp [hfix]
        · obtain ⟨hd, hst, -, -, -, -⟩ := hbody e.2 hb
          rw [hd, hst] at hm
          simp at hm
      unfold find_missing_mjs_for_site
      by_cases hdir : isDirB fs1 ["sites", sid] = true
      · rw [if_pos hdir]
        dsimp only
        have hnil : (collectL (inSiteDirMjs sid)
            (fun t => findall tryDyn t ++ findall tryStatic t) fs1.files).filter
            (fun rel => !pexistsB fs1 (["sites", sid] ++ splitRel rel)) = [] := by
          apply List.filter_eq_nil_iff.mpr
          intro a ha
          have hfix : pexistsB fs1 ("sites" :: sid :: splitRel a) = true := hall a ha
          simp [hfix]
        rw [hnil]
        rfl
      · rw [if_neg hdir]
    · -- no missing search index
      unfold find_missing_search_indexes
      apply List.filter_eq_nil_iff.mpr
      intro nm hnm
      obtain ⟨e, he, hext, hm⟩ := mem_collectL.mp (mem_sortDedup.mp hnm)
      rcases hmem e he with hek | hb
      · by_cases hex : pexistsB fsk (["sites", sid] ++ splitRel nm) = true
        · have hfix : pexistsB fs1 ("sites" :: sid :: splitRel nm) = true := hmono _ hex
          simp [hfix]
        · have hin : nm ∈ find_missing_search_indexes fsk sid := by
            unfold find_missing_search_indexes
            refine List.mem_filter.mpr
              ⟨mem_sortDedup.mpr (mem_collectL.mpr ⟨e, hek, hext, hm⟩), ?_⟩
            have hfix : pexistsB fsk ("sites" :: sid :: splitRel nm) = false :=
              Bool.eq_false_iff.mpr hex
            simp [hfix]
          have hfix : pexistsB fs1 ("sites" :: sid :: splitRel nm) = true := hidx nm hin
          simp [hfix]
      · obtain ⟨-, -, -, -, -, hidxfree⟩ := hbody e.2 hb
        rw [hidxfree sid] at hm
        simp at hm
  · -- no missing asset
    unfold find_missing_assets
    apply List.filter_eq_nil_iff.mpr
    intro nm hnm
    obtain ⟨e, he, hext, hm⟩ := mem_collectL.mp (mem_sortDedup.mp hnm)
    rcases downloadAll_mem_body hA e he with heS | hb
    · by_cases hex : (pexistsB fsS (["assets"] ++ splitRel nm) ||
          pexistsB fsS (["images"] ++ splitRel nm)) = true
      · simp only [Bool.or_eq_true] at hex
        rcases hex with h1 | h1
        · have hfix : pexistsB fs1 ("assets" :: splitRel nm) = true :=
            downloadAll_pexists_mono hA h1
          simp [hfix]
        · have hfix : pexistsB fs1 ("images" :: splitRel nm) = true :=
            downloadAll_pexists_mono hA h1
          simp [hfix]
      · have hin : nm ∈ find_missing_assets fsS := by
          unfold find_missing_assets
          refine List.mem_filter.mpr
            ⟨mem_sortDedup.mpr (mem_collectL.mpr ⟨e, heS, hext, hm⟩), ?_⟩
          have hfix1 : pexistsB fsS ("assets" :: splitRel nm) = false := by
            have hor : (pexistsB fsS (["assets"] ++ splitRel nm) ||
                pexistsB fsS (["images"] ++ splitRel nm)) = false := Bool.eq_false_iff.mpr hex
            exact (Bool.or_eq_false_iff.mp hor).1
          have hfix2 : pexistsB fsS ("images" :: splitRel nm) = false := by
            have hor : (pexistsB fsS (["assets"] ++ splitRel nm) ||
                pexistsB fsS (["images"] ++ splitRel nm)) = false := Bool.eq_false_iff.mpr hex
            exact (Bool.or_eq_false_iff.mp hor).2
          simp [hfix1, hfix2]
        have hdl := downloadAll_dest hok hA _ (List.mem_map_of_mem _ hin)
        have hfix : pexistsB fs1 ("assets" :: splitRel nm) = true := hdl
        simp [hfix]
    · obtain ⟨-, -, -, -, hassetfree, -⟩ := hbody e.2 hb
      rw [hassetfree] at hm
      simp at hm

/-- C1 counterexample: every download of the single reported missing module
succeeds — the run completes, `sites/A/b.mjs` is written with the fetched
body — yet that body statically imports `./c.mjs`, so the second run
reports the nonempty missing set `["c.mjs"]`. -/
theorem completion_counterexample :
    (∀ u : String, ((fun _ : String => some "import y from \"./c.mjs\";") u).isSome = true) ∧
    runMain (fun _ : String => some "import y from \"./c.mjs\";") false
        ⟨[(["sites", "A", "a.mjs"], "import x from \"./b.mjs\";"),
          (["index.html"], "https://framerusercontent.com/sites/A/x.html")], []⟩ =
      some ⟨[(["sites", "A", "b.mjs"], "import y from \"./c.mjs\";"),
          (["sites", "A", "a.mjs"], "import x from \"./b.mjs\";"),
          (["index.html"], "https://framerusercontent.com/sites/A/x.html")],
        [["sites", "A"]]⟩ ∧
    "A" ∈ sortDedup (find_site_ids
        ⟨[(["sites", "A", "b.mjs"], "import y from \"./c.mjs\";"),
          (["sites", "A", "a.mjs"], "import x from \"./b.mjs\";"),
          (["index.html"], "https://framerusercontent.com/sites/A/x.html")],
        [["sites", "A"]]⟩) ∧
    (find_missing_mjs_for_site
        ⟨[(["sites", "A", "b.mjs"], "import y from \"./c.mjs\";"),
          (["sites", "A", "a.mjs"], "import x from \"./b.mjs\";"),
          (["index.html"], "https://framerusercontent.com/sites/A/x.html")],
        [["sites", "A"]]⟩ "A").2 = ["c.mjs"] :=
  ⟨fun _ => rfl, rfl, by decide, rfl⟩

/-- Witness for C1 (amended): one missing search index, fetched with an
empty (reference-free) body; the second run's detections are all empty. -/
theorem completion_after_remediation_witness :
    (∀ u : String, ((fun _ : String => some "") u).isSome = true) ∧
    ((∀ sid ∈ sortDedup (find_site_ids
        ⟨[(["sites", "abc", "searchIndex-1.json"], ""),
          (["index.html"],
            "https://framerusercontent.com/sites/abc/searchIndex-1.json")],
          [["sites", "abc"]]⟩),
        (find_missing_mjs_for_site
          ⟨[(["sites", "abc", "searchIndex-1.json"], ""),
            (["index.html"],
              "https://framerusercontent.com/sites/abc/searchIndex-1.json")],
            [["sites", "abc"]]⟩ sid).2 = [] ∧
          find_missing_search_indexes
            ⟨[(["sites", "abc", "searchIndex-1.json"], ""),
              (["index.html"],
                "https://framerusercontent.com/sites/abc/searchIndex-1.json")],
              [["sites", "abc"]]⟩ sid = []) ∧
      find_missing_assets
        ⟨[(["sites", "abc", "searchIndex-1.json"], ""),
          (["index.html"],
            "https://framerusercontent.com/sites/abc/searchIndex-1.json")],
          [["sites", "abc"]]⟩ = []) :=
  ⟨fun _ => rfl,
    completion_after_remediation
      ⟨[(["index.html"],
        "https://framerusercontent.com/sites/abc/searchIndex-1.json")], []⟩
      ⟨[(["sites", "abc", "searchIndex-1.json"], ""),
        (["index.html"],
          "https://framerusercontent.com/sites/abc/searchIndex-1.json")],
        [["sites", "abc"]]⟩
      (fun _ => some "") (fun _ => rfl)
      (fun u b hb => by
        cases hb
        exact ⟨rfl, rfl, rfl, rfl, rfl, fun _ => rfl⟩) rfl⟩

end FramerFix
